import Mathlib

/-!
# Bernoulli vortex: offsets and io_uring submission of `bernoulli_vortex.c`

A shallow embedding of `src/bernoulli_vortex.c`.

* C `double` values are the rationals they denote; every arithmetic operation is
  the exact rational result rounded by `rnd`, IEEE-754 binary64 round-to-nearest
  ties-to-even (53-bit significand). The exponent range is not bounded: all
  values the program computes lie between 2^-6 and 2^12.
* The C library function `exp` is not part of the program; it is the parameter
  `expF`. Theorems state what they need of it (`ExpAccurate`, `ExpUnitRange`).
* liburing is not part of the program either; the ring is state that is passed
  along (`Ring`), and the kernel's answers are fields of `Env`.
-/

namespace BernoulliVortex

/-! ## Binary64 rounding -/

/-- Nearest integer of a rational, ties to the even neighbour. -/
def roundHalfEven (q : ℚ) : ℤ :=
  let f := ⌊q⌋
  if q - f < 1 / 2 then f
  else if 1 / 2 < q - f then f + 1
  else if f % 2 = 0 then f else f + 1

/-- Binary64 rounding of a positive rational `a`: with `e = ⌊log₂ a⌋` the
significand `a / 2^(e-52)` is rounded to an integer. -/
def roundMag (a : ℚ) : ℚ :=
  let e := Int.log 2 a
  (roundHalfEven (a * 2 ^ (52 - e)) : ℚ) * 2 ^ (e - 52)

/-- Binary64 round-to-nearest-even of a rational (sign and magnitude). -/
def rnd (q : ℚ) : ℚ :=
  if q = 0 then 0 else if 0 < q then roundMag q else -roundMag (-q)

/-- Truncation toward zero. -/
def truncQ (q : ℚ) : ℤ := if 0 ≤ q then ⌊q⌋ else ⌈q⌉

/-- The C conversion `(int)x` of a double: truncation toward zero, undefined
(`none`) when the truncated value is not a 32-bit `int`. -/
def castInt (q : ℚ) : Option ℤ :=
  if -2147483648 ≤ truncQ q ∧ truncQ q ≤ 2147483647 then some (truncQ q) else none

/-! ## Constants -/

/-- The constant `#define ALPHA 0.0302011`: the decimal literal as a double. -/
def ALPHA : ℚ := rnd (302011 / 10000000)

/-- The constant `#define L_LAYERS 33`. -/
def L_LAYERS : ℕ := 33

/-- The `math.h` constant `M_PI`, `3.14159265358979323846` as a double. -/
def M_PI : ℚ := rnd (314159265358979323846 / 100000000000000000000)

/-! ## Offset computation (lines 23-24) -/

/-- Line 23 with `ALPHA` as the parameter `alpha`:
`exp(-alpha * i) * (M_PI / (1 + alpha))`, each operation rounded. -/
def resonanceAt (expF : ℚ → ℚ) (alpha : ℚ) (i : ℕ) : ℚ :=
  rnd (expF (rnd (-alpha * (i : ℚ))) * rnd (M_PI / rnd (1 + alpha)))

/-- Line 24 with `ALPHA` as the parameter `alpha`:
`(int)(resonance * 1024) % 4096`, `%` being C's truncating remainder. -/
def offsetAt (expF : ℚ → ℚ) (alpha : ℚ) (i : ℕ) : Option ℤ :=
  (castInt (rnd (resonanceAt expF alpha i * 1024))).map (fun n => Int.tmod n 4096)

/-- Line 23: `double resonance = exp(-ALPHA * i) * (M_PI / (1 + ALPHA));` -/
def resonance (expF : ℚ → ℚ) (i : ℕ) : ℚ := resonanceAt expF ALPHA i

/-- Line 24: `int offset = (int)(resonance * 1024) % 4096;` -/
def offset (expF : ℚ → ℚ) (i : ℕ) : Option ℤ := offsetAt expF ALPHA i

/-! ## The submission queue -/

/-- A submission queue entry: handed out blank by `io_uring_get_sqe`, then
filled in by `io_uring_prep_read` with descriptor, target address, length and
file offset. -/
inductive Sqe where
  | blank
  | read (fd : ℤ) (addr : ℤ) (nbytes : ℕ) (fileOffset : ℕ)
deriving DecidableEq

/-- Modelled from the spec: the asynchronous submission queue (liburing's
`struct io_uring`, which is not part of the repository). `entries` is its
capacity, `pending` the entries acquired since the last flush (oldest first),
`flushed` the batches handed over, one per call of `io_uring_submit`. -/
structure Ring where
  entries : ℕ
  pending : List Sqe
  flushed : List (List Sqe)
deriving DecidableEq

/-- Modelled from the spec: `acquireSlot`, liburing's `io_uring_get_sqe`. It
hands out the next free entry (its index), or NULL (`none`) when `entries`
entries are already pending. -/
def io_uring_get_sqe (ring : Ring) : Option ℕ × Ring :=
  if ring.pending.length < ring.entries then
    (some ring.pending.length, { ring with pending := ring.pending ++ [Sqe.blank] })
  else (none, ring)

/-- Modelled from the spec: `fillRead`, liburing's `io_uring_prep_read`. It
writes the request into the entry `sqe` points to; there is no entry to write
to (`none`) when `sqe` is NULL. -/
def io_uring_prep_read (ring : Ring) (sqe : Option ℕ) (fd buf : ℤ) (nbytes fileOffset : ℕ) :
    Option Ring :=
  match sqe with
  | none => none
  | some idx => some { ring with pending := ring.pending.set idx (Sqe.read fd buf nbytes fileOffset) }

/-- Modelled from the spec: `flush`, liburing's `io_uring_submit`. It hands
all pending entries over as one batch; the value returned (the number
submitted, or a negative errno) is the kernel's answer `enter`. -/
def io_uring_submit (enter : List Sqe → ℤ) (ring : Ring) : ℤ × Ring :=
  (enter ring.pending, { ring with pending := [], flushed := ring.flushed ++ [ring.pending] })

/-- Modelled from the spec: queue creation, liburing's `io_uring_queue_init`.
When the kernel's answer `setup entries` is negative the call fails and returns
it: the queue could not be created, and the ring has no entry to hand out.
Otherwise it returns 0 and the ring is empty with capacity `entries` (the
kernel rounds the capacity up to a power of two, which 32 is). -/
def io_uring_queue_init (setup : ℕ → ℤ) (entries : ℕ) : ℤ × Ring :=
  if setup entries < 0 then (setup entries, { entries := 0, pending := [], flushed := [] })
  else (0, { entries := entries, pending := [], flushed := [] })

/-- Modelled from the spec: liburing's `io_uring_queue_exit`, which releases
the ring. -/
def io_uring_queue_exit (_ring : Ring) : Ring :=
  { entries := 0, pending := [], flushed := [] }

/-! ## The program -/

/-- What the program's surroundings decide: the C library's `exp` on doubles,
the address `malloc(4096)` returns, and the kernel's answers to queue creation
and to a flush. -/
structure Env where
  expF : ℚ → ℚ
  mallocRet : ℤ
  setup : ℕ → ℤ
  enter : List Sqe → ℤ

/-- The state the program changes: the ring and what was printed. -/
structure State where
  ring : Ring
  stdout : List String
deriving DecidableEq

/-- Undefined behaviour the program can run into, with the layer index and the
state at that point: `io_uring_prep_read` writing through a NULL entry, and a
double-to-int conversion out of range. -/
inductive Fault where
  | nullSqe (layer : ℕ) (st : State)
  | intCast (layer : ℕ) (st : State)
deriving DecidableEq

/-- The body of the loop, lines 23-32, for layer `i`; `layers` is `L_LAYERS`. -/
def layerStep (env : Env) (layers : ℕ) (buffer : ℤ) (st : State) (i : ℕ) : Except Fault State :=
  match offset env.expF i with
  | none => .error (Fault.intCast i st)
  | some off =>
    match io_uring_get_sqe st.ring with
    | (sqe, ring) =>
      match io_uring_prep_read ring sqe 0 (buffer + off) 1 0 with
      | none => .error (Fault.nullSqe i { st with ring := ring })
      | some ring' =>
        .ok { ring := ring',
              stdout := if i = layers then
                  st.stdout ++ ["[!] LAYER 33 REACHED. Inducing Temporal Singularity.\n"]
                else st.stdout }

/-- Lines 15-37 with `L_LAYERS` as the parameter `layers`: allocate the
buffer, run the loop for `i = 1 .. layers`, flush once (result ignored). -/
def triggerWith (layers : ℕ) (env : Env) (st : State) : Except Fault State := do
  let buffer := env.mallocRet
  let st₁ : State :=
    { st with stdout := st.stdout ++ ["[!] SimoesCTT: Initializing Bernoulli Vortex Resonance...\n"] }
  let st₂ ← (List.range' 1 layers).foldlM (layerStep env layers buffer) st₁
  let flushRes := io_uring_submit env.enter st₂.ring
  pure { ring := flushRes.2,
         stdout := st₂.stdout ++
           ["[SUCCESS] Vortex Pulse Dispatched. Monitor Kernel Log for Panic.\n"] }

/-- Lines 15-37: `void trigger_ctt_resonance(struct io_uring *ring)`. -/
def trigger_ctt_resonance (env : Env) (st : State) : Except Fault State :=
  triggerWith L_LAYERS env st

/-- Lines 39-45: `int main()`. The results of `io_uring_queue_init` and (inside
`trigger_ctt_resonance`) of `io_uring_submit` are dropped; the value is the
exit code and the final state. -/
def main (env : Env) : Except Fault (ℤ × State) := do
  let initRes := io_uring_queue_init env.setup 32
  let st ← trigger_ctt_resonance env { ring := initRes.2, stdout := [] }
  let ring := io_uring_queue_exit st.ring
  pure (0, { st with ring := ring })

/-! ## What the theorems assume of `exp`, and a function that has it -/

/-- Accuracy of the C library's `exp` on the arguments the program passes it:
on `[-1, 0]` it is within `2^-24` of the real exponential. -/
def ExpAccurate (expF : ℚ → ℚ) : Prop :=
  ∀ x : ℚ, -1 ≤ x → x ≤ 0 → |((expF x : ℚ) : ℝ) - Real.exp (x : ℝ)| ≤ 1 / 2 ^ 24

/-- Range of the C library's `exp` on non-positive arguments: within `[0, 1]`. -/
def ExpUnitRange (expF : ℚ → ℚ) : Prop :=
  ∀ x : ℚ, x ≤ 0 → 0 ≤ expF x ∧ expF x ≤ 1

/-- Taylor polynomial of degree 11 of the exponential. -/
def expTaylor (x : ℚ) : ℚ := ∑ m ∈ Finset.range 12, x ^ m / (m.factorial : ℚ)

/-- An `exp` for doubles: the Taylor polynomial, rounded, kept within `[0, 1]`. -/
def expRef (x : ℚ) : ℚ := max 0 (min 1 (rnd (expTaylor x)))

/-! ## The offsets, layer by layer -/

/-- The offsets of layers 1 to 33 for `ALPHA`. -/
def offsetTable : List ℤ :=
  [3029, 2939, 2852, 2767, 2685, 2605, 2527, 2452, 2379, 2308, 2240,
   2173, 2108, 2045, 1985, 1926, 1868, 1813, 1759, 1706, 1656, 1606,
   1559, 1512, 1467, 1423, 1381, 1340, 1300, 1261, 1224, 1187, 1152]

/-- The offsets of layers 1 to 5 for `alpha = 0.1`. -/
def tenthTable : List ℤ := [2646, 2394, 2166, 1960, 1773]

/-- The rational inequalities that pin layer `i` to the offset `k`: with
`exp (-alpha)` within `[P, Q]` and the factor `pi / (1 + alpha)` within
`[cLo, cHi]`, the scaled value lies in `[k, k + 1)` whatever the roundings and
an `exp` error of `2^-24` do. -/
def TableCheck (P Q cLo cHi : ℚ) (i : ℕ) (k : ℤ) : Prop :=
  0 ≤ k ∧ k < 4096 ∧ 1 / 2 ^ 24 ≤ P ^ i ∧
    (k : ℚ) ≤ (P ^ i - 1 / 2 ^ 24) * cLo * (1 - 1 / 2 ^ 53) ^ 2 * 1024 ∧
    (Q ^ i + 1 / 2 ^ 24) * cHi * (1 + 1 / 2 ^ 53) ^ 2 * 1024 < k + 1

/-- The reference of the specification, over the reals: `k` is
`floor(exp(-alpha*i) * (pi/(1+alpha)) * 1024) mod bufferSize`. -/
def IsSpecOffset (alpha : ℝ) (bufferSize : ℤ) (i : ℕ) (k : ℤ) : Prop :=
  k = ⌊Real.exp (-alpha * (i : ℝ)) * (Real.pi / (1 + alpha)) * 1024⌋ % bufferSize

/-! ## Concrete surroundings -/

/-- Surroundings in which everything succeeds: queue creation returns 0, a
flush returns the number of entries it was given. -/
def refEnv : Env :=
  { expF := expRef, mallocRet := 4096000, setup := fun _ => 0,
    enter := fun batch => batch.length }

/-- Surroundings in which queue creation fails (`-ENOSYS`) and every flush
fails (`-EBADF`); the buffer is at another address than in `refEnv`. -/
def failEnv : Env :=
  { expF := expRef, mallocRet := 8192000, setup := fun _ => -38, enter := fun _ => -9 }

/-- The state `main` hands to `trigger_ctt_resonance` after a successful
`io_uring_queue_init(32, ...)`. -/
def freshState : State := { ring := { entries := 32, pending := [], flushed := [] }, stdout := [] }

/-- The `(descriptor, offset, length)` of the read requests among `entries`,
the offset taken relative to `buffer`. -/
def triplesOf (buffer : ℤ) (entries : List Sqe) : List (ℤ × ℤ × ℕ) :=
  entries.filterMap
    (fun e => match e with
      | Sqe.blank => none
      | Sqe.read fd addr nbytes _ => some (fd, addr - buffer, nbytes))

/-- The requests a run from `st` to `s` prepared and flushed: the last batch
without what was pending before the run. -/
def requestsOf (buffer : ℤ) (st s : State) : List (ℤ × ℤ × ℕ) :=
  triplesOf buffer ((s.ring.flushed.getLast?.getD []).drop st.ring.pending.length)

/-- How a run ended: it returned, or it faulted at a layer in one of the two ways. -/
inductive Ending where
  | returned
  | nullWrite (layer : ℕ)
  | badCast (layer : ℕ)
deriving DecidableEq

/-- What a run from `st` shows: how it ended and the requests it made, those
flushed for a run that returned, those prepared so far for one that faulted. -/
def observed (buffer : ℤ) (st : State) : Except Fault State → Ending × List (ℤ × ℤ × ℕ)
  | .ok s => (Ending.returned, requestsOf buffer st s)
  | .error (Fault.nullSqe layer s) =>
      (Ending.nullWrite layer, triplesOf buffer (s.ring.pending.drop st.ring.pending.length))
  | .error (Fault.intCast layer s) =>
      (Ending.badCast layer, triplesOf buffer (s.ring.pending.drop st.ring.pending.length))

/-- Two states of two runs that started with `n` entries pending agree on the
queue: same capacity, same batches flushed, same number of entries pending, and
the same requests prepared since the start, each relative to its own buffer. -/
def SameQueue (n : ℕ) (b₁ b₂ : ℤ) (s₁ s₂ : State) : Prop :=
  s₁.ring.entries = s₂.ring.entries ∧ s₁.ring.flushed = s₂.ring.flushed ∧
    s₁.ring.pending.length = s₂.ring.pending.length ∧ n ≤ s₁.ring.pending.length ∧
    triplesOf b₁ (s₁.ring.pending.drop n) = triplesOf b₂ (s₂.ring.pending.drop n)

/-- Two results of the loop agree: both states agree on the queue, or both are
the same fault at the same layer in states that agree on the queue. -/
def SameResult (n : ℕ) (b₁ b₂ : ℤ) : Except Fault State → Except Fault State → Prop
  | .ok s₁, .ok s₂ => SameQueue n b₁ b₂ s₁ s₂
  | .error (Fault.nullSqe i s₁), .error (Fault.nullSqe j s₂) => i = j ∧ SameQueue n b₁ b₂ s₁ s₂
  | .error (Fault.intCast i s₁), .error (Fault.intCast j s₂) => i = j ∧ SameQueue n b₁ b₂ s₁ s₂
  | _, _ => False

/-! ## Rounding lemmas -/

theorem roundHalfEven_err (q : ℚ) : |((roundHalfEven q : ℤ) : ℚ) - q| ≤ 1 / 2 := by
  have h1 : ((⌊q⌋ : ℤ) : ℚ) ≤ q := Int.floor_le q
  have h2 : q < ((⌊q⌋ : ℤ) : ℚ) + 1 := Int.lt_floor_add_one q
  unfold roundHalfEven
  simp only
  rw [abs_le]
  split_ifs with a b c
  · constructor <;> linarith
  · push_cast; constructor <;> linarith
  · constructor <;> linarith
  · push_cast; constructor <;> linarith

theorem roundHalfEven_eq_of_near (t : ℚ) (m : ℤ) (h : |t - m| < 1 / 2) :
    roundHalfEven t = m := by
  rw [abs_lt] at h
  obtain ⟨h1, h2⟩ := h
  unfold roundHalfEven
  simp only
  rcases le_or_lt (m : ℚ) t with hge | hlt
  · have hf : ⌊t⌋ = m := by
      rw [Int.floor_eq_iff]; constructor <;> linarith
    rw [hf, if_pos (by linarith)]
  · have hf : ⌊t⌋ = m - 1 := by
      rw [Int.floor_eq_iff]; push_cast; constructor <;> linarith
    rw [hf]
    push_cast
    rw [if_neg (by linarith), if_pos (by linarith)]
    ring

theorem log_two_eq (q : ℚ) (e : ℤ) (hq : 0 < q) (h1 : (2 : ℚ) ^ e ≤ q) (h2 : q < 2 ^ (e + 1)) :
    Int.log 2 q = e := by
  apply le_antisymm
  · have h := (Int.lt_zpow_iff_log_lt (b := 2) (by norm_num) hq (x := e + 1)).mp
      (by exact_mod_cast h2)
    omega
  · exact (Int.zpow_le_iff_le_log (b := 2) (by norm_num) hq).mp (by exact_mod_cast h1)

/-- A certificate for one rounding: binade `e` and significand `m`. -/
theorem rnd_eq_of_cert (q : ℚ) (e m : ℤ) (hq : 0 < q) (h1 : (2 : ℚ) ^ e ≤ q)
    (h2 : q < 2 ^ (e + 1)) (hm : |q * 2 ^ (52 - e) - m| < 1 / 2) :
    rnd q = m * 2 ^ (e - 52) := by
  unfold rnd
  rw [if_neg hq.ne', if_pos hq]
  unfold roundMag
  simp only
  rw [log_two_eq q e hq h1 h2, roundHalfEven_eq_of_near _ m hm]

theorem roundMag_err (a : ℚ) (ha : 0 < a) : |roundMag a - a| ≤ a / 2 ^ 53 := by
  have hlog : (2 : ℚ) ^ Int.log 2 a ≤ a := by
    have h := Int.zpow_log_le_self (b := 2) (r := a) (by norm_num) ha
    exact_mod_cast h
  have hpos : (0 : ℚ) < 2 ^ (Int.log 2 a - 52) := by positivity
  have hsplit : a = a * 2 ^ (52 - Int.log 2 a) * 2 ^ (Int.log 2 a - 52) := by
    rw [mul_assoc, ← zpow_add₀ (by norm_num : (2 : ℚ) ≠ 0)]
    simp
  have herr := roundHalfEven_err (a * 2 ^ (52 - Int.log 2 a))
  have hdiff : roundMag a - a
      = (((roundHalfEven (a * 2 ^ (52 - Int.log 2 a)) : ℤ) : ℚ) - a * 2 ^ (52 - Int.log 2 a))
          * 2 ^ (Int.log 2 a - 52) := by
    unfold roundMag
    simp only
    rw [sub_mul, ← hsplit]
  rw [hdiff, abs_mul, abs_of_pos hpos]
  have hscale : (2 : ℚ) ^ (Int.log 2 a - 52) = 2 ^ Int.log 2 a / 2 ^ 52 := by
    rw [zpow_sub₀ (by norm_num : (2 : ℚ) ≠ 0)]
    norm_num
  calc |((roundHalfEven (a * 2 ^ (52 - Int.log 2 a)) : ℤ) : ℚ) - a * 2 ^ (52 - Int.log 2 a)|
        * 2 ^ (Int.log 2 a - 52)
      ≤ 1 / 2 * 2 ^ (Int.log 2 a - 52) := by gcongr
    _ = 2 ^ Int.log 2 a / 2 ^ 53 := by rw [hscale]; ring
    _ ≤ a / 2 ^ 53 := by gcongr

/-- Rounding changes a value by at most half a unit in the last place. -/
theorem rnd_err (q : ℚ) : |rnd q - q| ≤ |q| / 2 ^ 53 := by
  unfold rnd
  split_ifs with h0 hp
  · simp [h0]
  · rw [abs_of_pos hp]; exact roundMag_err q hp
  · have hn : 0 < -q := by
      rcases lt_trichotomy q 0 with h | h | h
      · linarith
      · exact absurd h h0
      · exact absurd h hp
    have h := roundMag_err (-q) hn
    rw [abs_of_neg (by linarith : q < 0)]
    rw [show -roundMag (-q) - q = -(roundMag (-q) - -q) by ring, abs_neg]
    exact h

theorem rnd_nonneg_bounds (q : ℚ) (hq : 0 ≤ q) :
    q * (1 - 1 / 2 ^ 53) ≤ rnd q ∧ rnd q ≤ q * (1 + 1 / 2 ^ 53) := by
  have h := rnd_err q
  rw [abs_of_nonneg hq, abs_le] at h
  constructor <;> linarith [h.1, h.2]

theorem rnd_nonpos_bounds (q : ℚ) (hq : q ≤ 0) :
    q * (1 + 1 / 2 ^ 53) ≤ rnd q ∧ rnd q ≤ q * (1 - 1 / 2 ^ 53) := by
  have h := rnd_err q
  rw [abs_of_nonpos hq, abs_le] at h
  constructor <;> linarith [h.1, h.2]

theorem rnd_nonneg (q : ℚ) (hq : 0 ≤ q) : 0 ≤ rnd q :=
  le_trans (mul_nonneg hq (by norm_num)) (rnd_nonneg_bounds q hq).1

/-- The scaled value `resonance * 1024` of a product `y`, after both roundings. -/
theorem scaled_bounds (y : ℚ) (hy : 0 ≤ y) :
    y * (1 - 1 / 2 ^ 53) ^ 2 * 1024 ≤ rnd (rnd y * 1024) ∧
      rnd (rnd y * 1024) ≤ y * (1 + 1 / 2 ^ 53) ^ 2 * 1024 := by
  have h1 := rnd_nonneg_bounds y hy
  have h0 : 0 ≤ rnd y * 1024 := mul_nonneg (rnd_nonneg y hy) (by norm_num)
  have h2 := rnd_nonneg_bounds (rnd y * 1024) h0
  have hu : (0 : ℚ) ≤ 1 - 1 / 2 ^ 53 := by norm_num
  constructor
  · calc y * (1 - 1 / 2 ^ 53) ^ 2 * 1024
        = y * (1 - 1 / 2 ^ 53) * 1024 * (1 - 1 / 2 ^ 53) := by ring
      _ ≤ rnd y * 1024 * (1 - 1 / 2 ^ 53) := by
          have h3 := h1.1
          gcongr
      _ ≤ rnd (rnd y * 1024) := h2.1
  · calc rnd (rnd y * 1024) ≤ rnd y * 1024 * (1 + 1 / 2 ^ 53) := h2.2
      _ ≤ y * (1 + 1 / 2 ^ 53) * 1024 * (1 + 1 / 2 ^ 53) := by
          have h3 := h1.2
          gcongr
      _ = y * (1 + 1 / 2 ^ 53) ^ 2 * 1024 := by ring

/-- The cast and the remainder at a value whose floor `k` is a buffer index. -/
theorem cast_mod_of_floor (v : ℚ) (k : ℤ) (hk0 : 0 ≤ k) (hk1 : k < 4096)
    (h1 : (k : ℚ) ≤ v) (h2 : v < k + 1) :
    ⌊v⌋ = k ∧ castInt v = some k ∧ (castInt v).map (fun n => Int.tmod n 4096) = some k := by
  have hf : ⌊v⌋ = k := by
    rw [Int.floor_eq_iff]; exact ⟨h1, h2⟩
  have hv : 0 ≤ v := le_trans (by exact_mod_cast hk0) h1
  have ht : truncQ v = k := by
    unfold truncQ
    rw [if_pos hv, hf]
  have hc : castInt v = some k := by
    unfold castInt
    rw [ht, if_pos (by constructor <;> omega)]
  refine ⟨hf, hc, ?_⟩
  rw [hc]
  simp only [Option.map_some', Option.some.injEq]
  rw [Int.tmod_eq_emod hk0 (by norm_num)]
  exact Int.emod_eq_of_lt hk0 hk1

/-- The offset from enclosures of the `exp` value and of the constant factor. -/
theorem offsetAt_eq_of_enclosure (expF : ℚ → ℚ) (alpha : ℚ) (i : ℕ) (k : ℤ)
    (elo ehi clo chi : ℚ)
    (he1 : elo ≤ expF (rnd (-alpha * (i : ℚ)))) (he2 : expF (rnd (-alpha * (i : ℚ))) ≤ ehi)
    (hc1 : clo ≤ rnd (M_PI / rnd (1 + alpha))) (hc2 : rnd (M_PI / rnd (1 + alpha)) ≤ chi)
    (helo : 0 ≤ elo) (hclo : 0 ≤ clo) (hk0 : 0 ≤ k) (hk1 : k < 4096)
    (hlo : (k : ℚ) ≤ elo * clo * (1 - 1 / 2 ^ 53) ^ 2 * 1024)
    (hhi : ehi * chi * (1 + 1 / 2 ^ 53) ^ 2 * 1024 < k + 1) :
    ⌊rnd (resonanceAt expF alpha i * 1024)⌋ = k ∧
      castInt (rnd (resonanceAt expF alpha i * 1024)) = some k ∧
      offsetAt expF alpha i = some k := by
  have hy0 : 0 ≤ expF (rnd (-alpha * (i : ℚ))) * rnd (M_PI / rnd (1 + alpha)) :=
    mul_nonneg (le_trans helo he1) (le_trans hclo hc1)
  have hb := scaled_bounds _ hy0
  have hl : elo * clo ≤ expF (rnd (-alpha * (i : ℚ))) * rnd (M_PI / rnd (1 + alpha)) :=
    mul_le_mul he1 hc1 hclo (le_trans helo he1)
  have hh : expF (rnd (-alpha * (i : ℚ))) * rnd (M_PI / rnd (1 + alpha)) ≤ ehi * chi :=
    mul_le_mul he2 hc2 (le_trans hclo hc1) (le_trans (le_trans helo he1) he2)
  have hu1 : (0 : ℚ) ≤ (1 - 1 / 2 ^ 53) ^ 2 * 1024 := by norm_num
  have hu2 : (0 : ℚ) ≤ (1 + 1 / 2 ^ 53) ^ 2 * 1024 := by norm_num
  have hv1 : (k : ℚ) ≤ rnd (resonanceAt expF alpha i * 1024) := by
    unfold resonanceAt
    calc (k : ℚ) ≤ elo * clo * ((1 - 1 / 2 ^ 53) ^ 2 * 1024) := by rw [← mul_assoc]; exact hlo
      _ ≤ expF (rnd (-alpha * (i : ℚ))) * rnd (M_PI / rnd (1 + alpha))
            * ((1 - 1 / 2 ^ 53) ^ 2 * 1024) := mul_le_mul_of_nonneg_right hl hu1
      _ = expF (rnd (-alpha * (i : ℚ))) * rnd (M_PI / rnd (1 + alpha))
            * (1 - 1 / 2 ^ 53) ^ 2 * 1024 := by ring
      _ ≤ _ := hb.1
  have hv2 : rnd (resonanceAt expF alpha i * 1024) < k + 1 := by
    unfold resonanceAt
    calc _ ≤ expF (rnd (-alpha * (i : ℚ))) * rnd (M_PI / rnd (1 + alpha))
            * (1 + 1 / 2 ^ 53) ^ 2 * 1024 := hb.2
      _ = expF (rnd (-alpha * (i : ℚ))) * rnd (M_PI / rnd (1 + alpha))
            * ((1 + 1 / 2 ^ 53) ^ 2 * 1024) := by ring
      _ ≤ ehi * chi * ((1 + 1 / 2 ^ 53) ^ 2 * 1024) := mul_le_mul_of_nonneg_right hh hu2
      _ = ehi * chi * (1 + 1 / 2 ^ 53) ^ 2 * 1024 := by ring
      _ < k + 1 := hhi
  have h := cast_mod_of_floor _ k hk0 hk1 hv1 hv2
  exact ⟨h.1, h.2.1, h.2.2⟩

/-! ## Enclosing the exponential -/

theorem expTaylor_err (x : ℚ) (hx1 : -1 ≤ x) (hx0 : x ≤ 0) :
    |Real.exp (x : ℝ) - ((expTaylor x : ℚ) : ℝ)| ≤ 1 / 2 ^ 28 := by
  have hx : |(x : ℝ)| ≤ 1 := by
    rw [abs_le]
    constructor
    · exact_mod_cast hx1
    · have h : (x : ℝ) ≤ 0 := by exact_mod_cast hx0
      linarith
  have h := Real.exp_bound hx (n := 12) (by norm_num)
  have hcast : ((expTaylor x : ℚ) : ℝ) = ∑ m ∈ Finset.range 12, (x : ℝ) ^ m / (m.factorial : ℝ) := by
    unfold expTaylor
    push_cast
    rfl
  rw [hcast]
  refine le_trans h ?_
  have hp : |(x : ℝ)| ^ 12 ≤ 1 := pow_le_one₀ (abs_nonneg _) hx
  calc |(x : ℝ)| ^ 12 * (((12 : ℕ).succ : ℝ) / (((12 : ℕ).factorial : ℝ) * ((12 : ℕ) : ℝ)))
      ≤ 1 * (((12 : ℕ).succ : ℝ) / (((12 : ℕ).factorial : ℝ) * ((12 : ℕ) : ℝ))) := by
        gcongr
    _ ≤ 1 / 2 ^ 28 := by
        norm_num [Nat.factorial]

/-- Powers of an enclosure of `exp (-a)` enclose `exp` on `[-aHi * i, -aLo * i]`. -/
theorem exp_pow_enclosure (aLo aHi P Q t : ℝ) (i : ℕ) (hP0 : 0 ≤ P)
    (hP : P ≤ Real.exp (-aHi)) (hQ : Real.exp (-aLo) ≤ Q)
    (ht1 : -(aHi * i) ≤ t) (ht2 : t ≤ -(aLo * i)) :
    P ^ i ≤ Real.exp t ∧ Real.exp t ≤ Q ^ i := by
  constructor
  · calc P ^ i ≤ Real.exp (-aHi) ^ i := pow_le_pow_left₀ hP0 hP i
      _ = Real.exp ((i : ℝ) * -aHi) := (Real.exp_nat_mul _ _).symm
      _ ≤ Real.exp t := Real.exp_le_exp.mpr (by linarith)
  · calc Real.exp t ≤ Real.exp ((i : ℝ) * -aLo) := Real.exp_le_exp.mpr (by linarith)
      _ = Real.exp (-aLo) ^ i := Real.exp_nat_mul _ _
      _ ≤ Q ^ i := pow_le_pow_left₀ (Real.exp_pos _).le hQ i

/-- The argument `-alpha * i` after rounding, for a positive `alpha`. -/
theorem arg_bounds (alpha aLo aHi : ℚ) (i : ℕ) (ha : 0 ≤ alpha)
    (ha1 : aLo ≤ alpha * (1 - 1 / 2 ^ 53)) (ha2 : alpha * (1 + 1 / 2 ^ 53) ≤ aHi) :
    -(aHi * i) ≤ rnd (-alpha * (i : ℚ)) ∧ rnd (-alpha * (i : ℚ)) ≤ -(aLo * i) := by
  have hi : (0 : ℚ) ≤ i := Nat.cast_nonneg i
  have hq : -alpha * (i : ℚ) ≤ 0 := by nlinarith
  have h := rnd_nonpos_bounds _ hq
  have h1 : alpha * (1 + 1 / 2 ^ 53) * i ≤ aHi * i := mul_le_mul_of_nonneg_right ha2 hi
  have h2 : aLo * i ≤ alpha * (1 - 1 / 2 ^ 53) * i := mul_le_mul_of_nonneg_right ha1 hi
  constructor
  · linarith [h.1]
  · linarith [h.2]

/-- The value an accurate `exp` returns at the rounded argument of layer `i`. -/
theorem expF_enclosure (expF : ℚ → ℚ) (hF : ExpAccurate expF) (alpha aLo aHi P Q : ℚ) (i : ℕ)
    (ha : 0 ≤ alpha) (haLo : 0 ≤ aLo)
    (ha1 : aLo ≤ alpha * (1 - 1 / 2 ^ 53)) (ha2 : alpha * (1 + 1 / 2 ^ 53) ≤ aHi)
    (hi : aHi * i ≤ 1) (hP0 : 0 ≤ P)
    (hP : (P : ℝ) ≤ Real.exp (-(aHi : ℝ))) (hQ : Real.exp (-(aLo : ℝ)) ≤ (Q : ℝ)) :
    P ^ i - 1 / 2 ^ 24 ≤ expF (rnd (-alpha * (i : ℚ))) ∧
      expF (rnd (-alpha * (i : ℚ))) ≤ Q ^ i + 1 / 2 ^ 24 := by
  have hb := arg_bounds alpha aLo aHi i ha ha1 ha2
  have hi0 : (0 : ℚ) ≤ i := Nat.cast_nonneg i
  have hx1 : -1 ≤ rnd (-alpha * (i : ℚ)) := by linarith [hb.1]
  have hx0 : rnd (-alpha * (i : ℚ)) ≤ 0 := by
    have : 0 ≤ aLo * i := mul_nonneg haLo hi0
    linarith [hb.2]
  have hacc := hF _ hx1 hx0
  rw [abs_le] at hacc
  have ht1 : -((aHi : ℝ) * i) ≤ ((rnd (-alpha * (i : ℚ)) : ℚ) : ℝ) := by exact_mod_cast hb.1
  have ht2 : ((rnd (-alpha * (i : ℚ)) : ℚ) : ℝ) ≤ -((aLo : ℝ) * i) := by exact_mod_cast hb.2
  have hen := exp_pow_enclosure aLo aHi P Q _ i (by exact_mod_cast hP0) hP hQ ht1 ht2
  constructor
  · have h : ((P ^ i - 1 / 2 ^ 24 : ℚ) : ℝ) ≤ ((expF (rnd (-alpha * (i : ℚ))) : ℚ) : ℝ) := by
      push_cast
      linarith [hen.1, hacc.1]
    exact_mod_cast h
  · have h : ((expF (rnd (-alpha * (i : ℚ))) : ℚ) : ℝ) ≤ ((Q ^ i + 1 / 2 ^ 24 : ℚ) : ℝ) := by
      push_cast
      linarith [hen.2, hacc.2]
    exact_mod_cast h

/-- Lower and upper bound of `exp` at a rational of `[-1, 0]` from the Taylor
polynomial and its remainder term. -/
theorem exp_rat_bounds (x : ℚ) (hx1 : -1 ≤ x) (hx0 : x ≤ 0) :
    ((expTaylor x - x ^ 12 * (13 / 5748019200) : ℚ) : ℝ) ≤ Real.exp (x : ℝ) ∧
      Real.exp (x : ℝ) ≤ ((expTaylor x + x ^ 12 * (13 / 5748019200) : ℚ) : ℝ) := by
  have hx : |(x : ℝ)| ≤ 1 := by
    rw [abs_le]
    constructor
    · exact_mod_cast hx1
    · have h : (x : ℝ) ≤ 0 := by exact_mod_cast hx0
      linarith
  have h := Real.exp_bound hx (n := 12) (by norm_num)
  have hcast : ((expTaylor x : ℚ) : ℝ) = ∑ m ∈ Finset.range 12, (x : ℝ) ^ m / (m.factorial : ℝ) := by
    unfold expTaylor
    push_cast
    rfl
  have hpow : |(x : ℝ)| ^ 12 = (x : ℝ) ^ 12 := by
    rw [show (12 : ℕ) = 2 * 6 by norm_num, pow_mul, pow_mul, sq_abs]
  have hconst : (((12 : ℕ).succ : ℝ) / (((12 : ℕ).factorial : ℝ) * ((12 : ℕ) : ℝ)))
      = 13 / 5748019200 := by
    norm_num [Nat.factorial]
  rw [← hcast, hpow, hconst, abs_le] at h
  push_cast
  constructor <;> linarith [h.1, h.2]

theorem exp_lower_of_taylor (a P : ℚ) (ha0 : 0 ≤ a) (ha1 : a ≤ 1)
    (h : P ≤ expTaylor (-a) - (-a) ^ 12 * (13 / 5748019200)) :
    (P : ℝ) ≤ Real.exp (-(a : ℝ)) := by
  have hb := (exp_rat_bounds (-a) (by linarith) (by linarith)).1
  have hc : (P : ℝ) ≤ ((expTaylor (-a) - (-a) ^ 12 * (13 / 5748019200) : ℚ) : ℝ) := by
    exact_mod_cast h
  have he : Real.exp (((-a : ℚ)) : ℝ) = Real.exp (-(a : ℝ)) := by push_cast; rfl
  rw [← he]
  exact le_trans hc hb

theorem exp_upper_of_taylor (a Q : ℚ) (ha0 : 0 ≤ a) (ha1 : a ≤ 1)
    (h : expTaylor (-a) + (-a) ^ 12 * (13 / 5748019200) ≤ Q) :
    Real.exp (-(a : ℝ)) ≤ (Q : ℝ) := by
  have hb := (exp_rat_bounds (-a) (by linarith) (by linarith)).2
  have hc : ((expTaylor (-a) + (-a) ^ 12 * (13 / 5748019200) : ℚ) : ℝ) ≤ (Q : ℝ) := by
    exact_mod_cast h
  have he : Real.exp (((-a : ℚ)) : ℝ) = Real.exp (-(a : ℝ)) := by push_cast; rfl
  rw [← he]
  exact le_trans hb hc

theorem exp_ALPHA_lower :
    ((9702503964762 / 10000000000000 : ℚ) : ℝ) ≤ Real.exp (-((302011001 / 10000000000 : ℚ) : ℝ)) := by
  apply exp_lower_of_taylor _ _ (by norm_num) (by norm_num)
  norm_num [expTaylor, Finset.sum_range_succ, Nat.factorial]

theorem exp_ALPHA_upper :
    Real.exp (-((302010999 / 10000000000 : ℚ) : ℝ)) ≤ ((9702503966706 / 10000000000000 : ℚ) : ℝ) := by
  apply exp_upper_of_taylor _ _ (by norm_num) (by norm_num)
  norm_num [expTaylor, Finset.sum_range_succ, Nat.factorial]

theorem exp_tenth_lower :
    ((9048374179453 / 10000000000000 : ℚ) : ℝ) ≤ Real.exp (-((1000000001 / 10000000000 : ℚ) : ℝ)) := by
  apply exp_lower_of_taylor _ _ (by norm_num) (by norm_num)
  norm_num [expTaylor, Finset.sum_range_succ, Nat.factorial]

theorem exp_tenth_upper :
    Real.exp (-((999999999 / 10000000000 : ℚ) : ℝ)) ≤ ((9048374181266 / 10000000000000 : ℚ) : ℝ) := by
  apply exp_upper_of_taylor _ _ (by norm_num) (by norm_num)
  norm_num [expTaylor, Finset.sum_range_succ, Nat.factorial]

/-! ## The constants as doubles -/

theorem ALPHA_eq : ALPHA = 4352437206597731 / 2 ^ 57 := by
  have h := rnd_eq_of_cert (302011 / 10000000) (-6) 8704874413195462 (by norm_num)
    (by norm_num) (by norm_num) (by rw [abs_lt]; constructor <;> norm_num)
  rw [ALPHA, h]
  norm_num

theorem M_PI_eq : M_PI = 884279719003555 / 2 ^ 48 := by
  have h := rnd_eq_of_cert (314159265358979323846 / 100000000000000000000) 1 7074237752028440
    (by norm_num) (by norm_num) (by norm_num) (by rw [abs_lt]; constructor <;> norm_num)
  rw [M_PI, h]
  norm_num

theorem factor_ALPHA_eq : rnd (M_PI / rnd (1 + ALPHA)) = 3433425644773841 / 2 ^ 50 := by
  have h1 : rnd (1 + ALPHA) = 4639613290076675 / 2 ^ 52 := by
    have h := rnd_eq_of_cert (1 + ALPHA) 0 4639613290076675 (by rw [ALPHA_eq]; norm_num)
      (by rw [ALPHA_eq]; norm_num) (by rw [ALPHA_eq]; norm_num)
      (by rw [ALPHA_eq, abs_lt]; constructor <;> norm_num)
    rw [h]
    norm_num
  have h := rnd_eq_of_cert (M_PI / rnd (1 + ALPHA)) 1 6866851289547682
    (by rw [h1, M_PI_eq]; norm_num) (by rw [h1, M_PI_eq]; norm_num)
    (by rw [h1, M_PI_eq]; norm_num) (by rw [h1, M_PI_eq, abs_lt]; constructor <;> norm_num)
  rw [h]
  norm_num

theorem tenth_eq : rnd (1 / 10) = 3602879701896397 / 2 ^ 55 := by
  have h := rnd_eq_of_cert (1 / 10) (-4) 7205759403792794 (by norm_num)
    (by norm_num) (by norm_num) (by rw [abs_lt]; constructor <;> norm_num)
  rw [h]
  norm_num

theorem factor_tenth_eq : rnd (M_PI / rnd (1 + rnd (1 / 10))) = 6431125229116763 / 2 ^ 51 := by
  have h1 : rnd (1 + rnd (1 / 10)) = 2476979795053773 / 2 ^ 51 := by
    have h := rnd_eq_of_cert (1 + rnd (1 / 10)) 0 4953959590107546 (by rw [tenth_eq]; norm_num)
      (by rw [tenth_eq]; norm_num) (by rw [tenth_eq]; norm_num)
      (by rw [tenth_eq, abs_lt]; constructor <;> norm_num)
    rw [h]
    norm_num
  have h := rnd_eq_of_cert (M_PI / rnd (1 + rnd (1 / 10))) 1 6431125229116763
    (by rw [h1, M_PI_eq]; norm_num) (by rw [h1, M_PI_eq]; norm_num)
    (by rw [h1, M_PI_eq]; norm_num) (by rw [h1, M_PI_eq, abs_lt]; constructor <;> norm_num)
  rw [h]
  norm_num

/-! ## From the inequalities to the offset -/

/-- The offset of layer `i` from enclosures `[aLo, aHi]` of `alpha`, `[P, Q]`
of `exp (-alpha)` and `[cLo, cHi]` of the factor, once `TableCheck` holds. -/
theorem offsetAt_eq_of_check (expF : ℚ → ℚ) (hF : ExpAccurate expF)
    (alpha aLo aHi P Q cLo cHi : ℚ) (i : ℕ) (k : ℤ)
    (ha : 0 ≤ alpha) (haLo : 0 ≤ aLo)
    (ha1 : aLo ≤ alpha * (1 - 1 / 2 ^ 53)) (ha2 : alpha * (1 + 1 / 2 ^ 53) ≤ aHi)
    (hi : aHi * i ≤ 1) (hP0 : 0 ≤ P)
    (hP : (P : ℝ) ≤ Real.exp (-(aHi : ℝ))) (hQ : Real.exp (-(aLo : ℝ)) ≤ (Q : ℝ))
    (hc1 : cLo ≤ rnd (M_PI / rnd (1 + alpha))) (hc2 : rnd (M_PI / rnd (1 + alpha)) ≤ cHi)
    (hc0 : 0 ≤ cLo) (hT : TableCheck P Q cLo cHi i k) :
    ⌊rnd (resonanceAt expF alpha i * 1024)⌋ = k ∧
      castInt (rnd (resonanceAt expF alpha i * 1024)) = some k ∧
      offsetAt expF alpha i = some k := by
  obtain ⟨hk0, hk1, htol, hlo, hhi⟩ := hT
  have he := expF_enclosure expF hF alpha aLo aHi P Q i ha haLo ha1 ha2 hi hP0 hP hQ
  exact offsetAt_eq_of_enclosure expF alpha i k _ _ cLo cHi he.1 he.2 hc1 hc2
    (by linarith) hc0 hk0 hk1 hlo hhi

theorem table_check (i : ℕ) (h1 : 1 ≤ i) (h2 : i ≤ 33) :
    TableCheck (9702503964762 / 10000000000000) (9702503966706 / 10000000000000)
      (30494945633330 / 10000000000000) (30494945633333 / 10000000000000)
      i (offsetTable.getD (i - 1) 0) := by
  unfold TableCheck
  interval_cases i <;> norm_num [offsetTable]

theorem tenth_check (i : ℕ) (h1 : 1 ≤ i) (h2 : i ≤ 5) :
    TableCheck (9048374179453 / 10000000000000) (9048374181266 / 10000000000000)
      (28559933214451 / 10000000000000) (28559933214454 / 10000000000000)
      i (tenthTable.getD (i - 1) 0) := by
  unfold TableCheck
  interval_cases i <;> norm_num [tenthTable]

/-- Every layer of the program: the scaled value has floor `offsetTable[i-1]`,
the cast is defined, and that is the offset. -/
theorem offset_layer (expF : ℚ → ℚ) (hF : ExpAccurate expF) (i : ℕ) (h1 : 1 ≤ i) (h2 : i ≤ 33) :
    ⌊rnd (resonance expF i * 1024)⌋ = offsetTable.getD (i - 1) 0 ∧
      castInt (rnd (resonance expF i * 1024)) = some (offsetTable.getD (i - 1) 0) ∧
      offset expF i = some (offsetTable.getD (i - 1) 0) := by
  have hi : (302011001 / 10000000000 : ℚ) * i ≤ 1 := by
    have : (i : ℚ) ≤ 33 := by exact_mod_cast h2
    linarith
  exact offsetAt_eq_of_check expF hF ALPHA (302010999 / 10000000000) (302011001 / 10000000000)
    (9702503964762 / 10000000000000) (9702503966706 / 10000000000000)
    (30494945633330 / 10000000000000) (30494945633333 / 10000000000000) i _
    (by rw [ALPHA_eq]; norm_num) (by norm_num) (by rw [ALPHA_eq]; norm_num)
    (by rw [ALPHA_eq]; norm_num) hi (by norm_num) exp_ALPHA_lower exp_ALPHA_upper
    (by rw [factor_ALPHA_eq]; norm_num) (by rw [factor_ALPHA_eq]; norm_num) (by norm_num)
    (table_check i h1 h2)

/-- Every layer for `alpha = 0.1`. -/
theorem tenth_layer (expF : ℚ → ℚ) (hF : ExpAccurate expF) (i : ℕ) (h1 : 1 ≤ i) (h2 : i ≤ 5) :
    offsetAt expF (rnd (1 / 10)) i = some (tenthTable.getD (i - 1) 0) := by
  have hi : (1000000001 / 10000000000 : ℚ) * i ≤ 1 := by
    have : (i : ℚ) ≤ 5 := by exact_mod_cast h2
    linarith
  exact (offsetAt_eq_of_check expF hF (rnd (1 / 10)) (999999999 / 10000000000)
    (1000000001 / 10000000000)
    (9048374179453 / 10000000000000) (9048374181266 / 10000000000000)
    (28559933214451 / 10000000000000) (28559933214454 / 10000000000000) i _
    (by rw [tenth_eq]; norm_num) (by norm_num) (by rw [tenth_eq]; norm_num)
    (by rw [tenth_eq]; norm_num) hi (by norm_num) exp_tenth_lower exp_tenth_upper
    (by rw [factor_tenth_eq]; norm_num) (by rw [factor_tenth_eq]; norm_num) (by norm_num)
    (tenth_check i h1 h2)).2.2

/-! ## The loop -/

theorem set_length_append (l : List Sqe) (a b : Sqe) : (l ++ [a]).set l.length b = l ++ [b] := by
  induction l with
  | nil => rfl
  | cons x xs ih => simp [List.set, ih]

/-- One pass of the loop body when the conversion is defined and an entry is free. -/
theorem layerStep_ok (env : Env) (layers : ℕ) (buffer : ℤ) (st : State) (i : ℕ) (off : ℤ)
    (hoff : offset env.expF i = some off) (hfree : st.ring.pending.length < st.ring.entries) :
    layerStep env layers buffer st i =
      .ok { ring := { st.ring with pending := st.ring.pending ++ [Sqe.read 0 (buffer + off) 1 0] },
            stdout := if i = layers then
                st.stdout ++ ["[!] LAYER 33 REACHED. Inducing Temporal Singularity.\n"]
              else st.stdout } := by
  unfold layerStep
  rw [hoff]
  simp only [io_uring_get_sqe, if_pos hfree, io_uring_prep_read, set_length_append]

/-- One pass of the loop body when the queue is full: the write through NULL. -/
theorem layerStep_full (env : Env) (layers : ℕ) (buffer : ℤ) (st : State) (i : ℕ) (off : ℤ)
    (hoff : offset env.expF i = some off) (hfull : ¬ st.ring.pending.length < st.ring.entries) :
    layerStep env layers buffer st i = .error (Fault.nullSqe i st) := by
  unfold layerStep
  rw [hoff]
  simp only [io_uring_get_sqe, if_neg hfull, io_uring_prep_read]

/-- A pass of the loop body that succeeds had a defined conversion and a free entry. -/
theorem layerStep_ok_inv (env : Env) (layers : ℕ) (buffer : ℤ) (st s : State) (i : ℕ)
    (h : layerStep env layers buffer st i = .ok s) :
    (∃ off, offset env.expF i = some off) ∧ st.ring.pending.length < st.ring.entries := by
  cases hoff : offset env.expF i with
  | none =>
    unfold layerStep at h
    rw [hoff] at h
    cases h
  | some off =>
    refine ⟨⟨off, rfl⟩, ?_⟩
    by_contra hfull
    rw [layerStep_full env layers buffer st i off hoff hfull] at h
    cases h

/-- The loop over the layers `l` when every conversion is defined and the queue
has room for all of them. -/
theorem loop_ok (env : Env) (layers : ℕ) (buffer : ℤ) (f : ℕ → ℤ) :
    ∀ (l : List ℕ) (st : State),
      (∀ i ∈ l, offset env.expF i = some (f i)) →
      st.ring.pending.length + l.length ≤ st.ring.entries →
      l.foldlM (layerStep env layers buffer) st =
        .ok { ring := { st.ring with
                pending := st.ring.pending ++ l.map (fun i => Sqe.read 0 (buffer + f i) 1 0) },
              stdout := st.stdout ++ (l.filter (fun i => i = layers)).map
                (fun _ => "[!] LAYER 33 REACHED. Inducing Temporal Singularity.\n") } := by
  intro l
  induction l with
  | nil =>
    intro st _ _
    simp [List.foldlM, pure, Except.pure]
  | cons i l ih =>
    intro st hoff hroom
    have hfree : st.ring.pending.length < st.ring.entries := by
      simp only [List.length_cons] at hroom
      omega
    rw [List.foldlM_cons, layerStep_ok env layers buffer st i (f i)
      (hoff i (List.mem_cons_self i l)) hfree]
    simp only [bind, Except.bind]
    rw [ih _ (fun j hj => hoff j (List.mem_cons_of_mem i hj))
      (by simp at hroom ⊢
          omega)]
    by_cases hi : i = layers
    · simp [hi, List.filter_cons]
    · simp [hi, List.filter_cons]

/-- A loop that runs to its end had every conversion defined and room for
every layer. -/
theorem loop_ok_inv (env : Env) (layers : ℕ) (buffer : ℤ) :
    ∀ (l : List ℕ) (st s : State),
      l.foldlM (layerStep env layers buffer) st = .ok s →
      (∀ i ∈ l, ∃ off, offset env.expF i = some off) ∧
        (l ≠ [] → st.ring.pending.length + l.length ≤ st.ring.entries) := by
  intro l
  induction l with
  | nil =>
    intro st s _
    simp
  | cons i l ih =>
    intro st s h
    rw [List.foldlM_cons] at h
    cases hstep : layerStep env layers buffer st i with
    | error e =>
      rw [hstep] at h
      cases h
    | ok st' =>
      rw [hstep] at h
      simp only [bind, Except.bind] at h
      obtain ⟨⟨off, hoff⟩, hfree⟩ := layerStep_ok_inv env layers buffer st st' i hstep
      have hst' := layerStep_ok env layers buffer st i off hoff hfree
      rw [hstep] at hst'
      injection hst' with hst'
      have hlen : st'.ring.pending.length = st.ring.pending.length + 1 := by
        rw [hst']
        simp
      have hent : st'.ring.entries = st.ring.entries := by
        rw [hst']
      obtain ⟨hall, hroom⟩ := ih st' s h
      refine ⟨?_, ?_⟩
      · intro j hj
        rcases List.mem_cons.mp hj with rfl | hj
        · exact ⟨off, hoff⟩
        · exact hall j hj
      · intro _
        simp only [List.length_cons]
        by_cases hl : l = []
        · rw [hl]
          simp only [List.length_nil]
          omega
        · have := hroom hl
          omega

/-! ## The function `trigger_ctt_resonance` and `main` -/

theorem offsets_of_range (expF : ℚ → ℚ) (hF : ExpAccurate expF) (n : ℕ) (hn : n ≤ 33) :
    ∀ i ∈ List.range' 1 n, offset expF i = some (offsetTable.getD (i - 1) 0) := by
  intro i hi
  rw [List.mem_range'_1] at hi
  exact (offset_layer expF hF i hi.1 (by omega)).2.2

/-- With room for exactly 32 entries the 33rd `io_uring_get_sqe` returns NULL
and `io_uring_prep_read` writes through it; nothing has been flushed. -/
theorem trigger_exhausted (env : Env) (st : State) (hF : ExpAccurate env.expF)
    (hroom : st.ring.pending.length + 32 = st.ring.entries) :
    trigger_ctt_resonance env st =
      .error (Fault.nullSqe 33
        { ring := { st.ring with
                    pending := st.ring.pending ++
                      (offsetTable.take 32).map (fun o => Sqe.read 0 (env.mallocRet + o) 1 0) },
          stdout := st.stdout ++
            ["[!] SimoesCTT: Initializing Bernoulli Vortex Resonance...\n"] }) := by
  unfold trigger_ctt_resonance triggerWith
  simp only [L_LAYERS]
  have hsplit : List.range' 1 33 = List.range' 1 32 ++ [33] := by decide
  rw [hsplit, List.foldlM_append]
  rw [loop_ok env 33 env.mallocRet (fun i => offsetTable.getD (i - 1) 0) (List.range' 1 32) _
    (offsets_of_range env.expF hF 32 (by norm_num)) (by simp; omega)]
  have hmap : (List.range' 1 32).map
      (fun i => Sqe.read 0 (env.mallocRet + offsetTable.getD (i - 1) 0) 1 0)
      = (offsetTable.take 32).map (fun o => Sqe.read 0 (env.mallocRet + o) 1 0) := by
    rfl
  have hfil : (List.range' 1 32).filter (fun i => decide (i = 33)) = [] := by decide
  rw [hmap, hfil]
  simp only [bind, Except.bind, List.foldlM_cons, List.foldlM_nil, List.map_nil,
    List.append_nil]
  rw [layerStep_full env 33 env.mallocRet _ 33 (offsetTable.getD (33 - 1) 0)
    ((offset_layer env.expF hF 33 (by norm_num) (by norm_num)).2.2)
    (by simp [offsetTable]; omega)]

/-- After a successful `io_uring_queue_init(32, ...)` the program faults at layer 33. -/
theorem main_exhausted (env : Env) (hF : ExpAccurate env.expF) (hinit : ¬ env.setup 32 < 0) :
    main env =
      .error (Fault.nullSqe 33
        { ring := { entries := 32,
                    pending := (offsetTable.take 32).map
                      (fun o => Sqe.read 0 (env.mallocRet + o) 1 0),
                    flushed := [] },
          stdout := ["[!] SimoesCTT: Initializing Bernoulli Vortex Resonance...\n"] }) := by
  unfold main io_uring_queue_init
  simp only [if_neg hinit]
  rw [trigger_exhausted env _ hF (by simp)]
  simp [bind, Except.bind]

/-- With no entry at all the first `io_uring_get_sqe` returns NULL: the run
faults at layer 1 with nothing prepared and nothing flushed. -/
theorem trigger_no_entries (env : Env) (st : State) (hF : ExpAccurate env.expF)
    (hnone : st.ring.entries = 0) :
    trigger_ctt_resonance env st =
      .error (Fault.nullSqe 1
        { st with stdout := st.stdout ++
            ["[!] SimoesCTT: Initializing Bernoulli Vortex Resonance...\n"] }) := by
  unfold trigger_ctt_resonance triggerWith
  simp only [L_LAYERS]
  have hsplit : List.range' 1 33 = 1 :: List.range' 2 32 := by decide
  rw [hsplit, List.foldlM_cons]
  rw [layerStep_full env 33 env.mallocRet _ 1 (offsetTable.getD (1 - 1) 0)
    ((offset_layer env.expF hF 1 (by norm_num) (by norm_num)).2.2)
    (by simp [hnone])]
  rfl

/-- After a failed `io_uring_queue_init` the program faults at layer 1. -/
theorem main_no_queue (env : Env) (hF : ExpAccurate env.expF) (hinit : env.setup 32 < 0) :
    main env =
      .error (Fault.nullSqe 1
        { ring := { entries := 0, pending := [], flushed := [] },
          stdout := ["[!] SimoesCTT: Initializing Bernoulli Vortex Resonance...\n"] }) := by
  unfold main io_uring_queue_init
  simp only [if_pos hinit]
  rw [trigger_no_entries env _ hF rfl]
  simp [bind, Except.bind]

/-- A run of the function that returns had room for 33 entries. -/
theorem trigger_ok_room (env : Env) (st s : State) (hrun : trigger_ctt_resonance env st = .ok s) :
    st.ring.pending.length + 33 ≤ st.ring.entries := by
  unfold trigger_ctt_resonance triggerWith at hrun
  simp only [L_LAYERS] at hrun
  cases hl : (List.range' 1 33).foldlM (layerStep env 33 env.mallocRet)
      { st with stdout := st.stdout ++
          ["[!] SimoesCTT: Initializing Bernoulli Vortex Resonance...\n"] } with
  | error e =>
    rw [hl] at hrun
    cases hrun
  | ok s' =>
    have h := (loop_ok_inv env 33 env.mallocRet _ _ _ hl).2 (by decide)
    simpa using h

/-- The ring `main` passes on never has room for 33 entries, so `main` never
reaches its `return 0`. -/
theorem main_not_ok (env : Env) (out : ℤ × State) : main env ≠ .ok out := by
  intro h
  unfold main at h
  dsimp only at h
  cases htr : trigger_ctt_resonance env
      { ring := (io_uring_queue_init env.setup 32).2, stdout := [] } with
  | error e =>
    rw [htr] at h
    cases h
  | ok s =>
    have hroom := trigger_ok_room env _ s htr
    unfold io_uring_queue_init at hroom
    by_cases hinit : env.setup 32 < 0
    · simp [if_pos hinit] at hroom
    · simp [if_neg hinit] at hroom

/-! ## The reference `exp` has both properties -/

theorem expRef_unitRange : ExpUnitRange expRef := by
  intro x _
  unfold expRef
  exact ⟨le_max_left _ _, max_le (by norm_num) (min_le_left _ _)⟩

theorem expRef_accurate : ExpAccurate expRef := by
  intro x hx1 hx0
  have ht := expTaylor_err x hx1 hx0
  rw [abs_le] at ht
  have hexp1 : Real.exp (x : ℝ) ≤ 1 := by
    have h : (x : ℝ) ≤ 0 := by exact_mod_cast hx0
    exact Real.exp_le_one_iff.mpr h
  have hexp0 : 0 < Real.exp (x : ℝ) := Real.exp_pos _
  have hr := rnd_err (expTaylor x)
  have hr' : |((rnd (expTaylor x) : ℚ) : ℝ) - ((expTaylor x : ℚ) : ℝ)|
      ≤ |((expTaylor x : ℚ) : ℝ)| / 2 ^ 53 := by
    exact_mod_cast hr
  have habs : |((expTaylor x : ℚ) : ℝ)| ≤ 2 := by
    rw [abs_le]
    constructor <;> nlinarith [ht.1, ht.2]
  rw [abs_le] at hr'
  have h53 : |((expTaylor x : ℚ) : ℝ)| / 2 ^ 53 ≤ 2 / 2 ^ 53 := by gcongr
  have hcast : ((expRef x : ℚ) : ℝ)
      = max 0 (min 1 ((rnd (expTaylor x) : ℚ) : ℝ)) := by
    unfold expRef
    push_cast
    rfl
  rw [hcast, abs_le]
  have hsmall : (2 : ℝ) / 2 ^ 53 + 1 / 2 ^ 28 ≤ 1 / 2 ^ 24 := by norm_num
  constructor
  · have h1 : Real.exp (x : ℝ) - 1 / 2 ^ 24 ≤ min 1 ((rnd (expTaylor x) : ℚ) : ℝ) := by
      apply le_min
      · linarith
      · linarith [hr'.1, ht.2]
    linarith [le_max_right (0 : ℝ) (min 1 ((rnd (expTaylor x) : ℚ) : ℝ))]
  · have h1 : max 0 (min 1 ((rnd (expTaylor x) : ℚ) : ℝ)) ≤ Real.exp (x : ℝ) + 1 / 2 ^ 24 := by
      apply max_le
      · linarith
      · exact le_trans (min_le_right _ _) (by linarith [hr'.2, ht.1])
    linarith

/-! ## The reference of the specification -/

theorem pi_div_ALPHA_bounds :
    ((30494945633330 / 10000000000000 : ℚ) : ℝ) ≤ Real.pi / (1 + 302011 / 10000000) ∧
      Real.pi / (1 + 302011 / 10000000) ≤ ((30494945633333 / 10000000000000 : ℚ) : ℝ) := by
  have h1 := Real.pi_gt_d20
  have h2 := Real.pi_lt_d20
  push_cast
  constructor
  · rw [le_div_iff₀ (by norm_num)]
    norm_num at h1 ⊢
    linarith
  · rw [div_le_iff₀ (by norm_num)]
    norm_num at h2 ⊢
    linarith

theorem pi_div_tenth_bounds :
    ((28559933214451 / 10000000000000 : ℚ) : ℝ) ≤ Real.pi / (1 + 1 / 10) ∧
      Real.pi / (1 + 1 / 10) ≤ ((28559933214454 / 10000000000000 : ℚ) : ℝ) := by
  have h1 := Real.pi_gt_d20
  have h2 := Real.pi_lt_d20
  push_cast
  constructor
  · rw [le_div_iff₀ (by norm_num)]
    norm_num at h1 ⊢
    linarith
  · rw [div_le_iff₀ (by norm_num)]
    norm_num at h2 ⊢
    linarith

/-- The reference value of layer `i` from the same inequalities. -/
theorem specOffset_of_check (a : ℝ) (aLo aHi P Q cLo cHi : ℚ) (i : ℕ) (k : ℤ)
    (ha1 : (aLo : ℝ) ≤ a) (ha2 : a ≤ (aHi : ℝ)) (hP0 : 0 ≤ P) (hc0 : 0 ≤ cLo)
    (hP : (P : ℝ) ≤ Real.exp (-(aHi : ℝ))) (hQ : Real.exp (-(aLo : ℝ)) ≤ (Q : ℝ))
    (hc1 : (cLo : ℝ) ≤ Real.pi / (1 + a)) (hc2 : Real.pi / (1 + a) ≤ (cHi : ℝ))
    (hT : TableCheck P Q cLo cHi i k) :
    IsSpecOffset a 4096 i k := by
  obtain ⟨hk0, hk1, htol, hlo, hhi⟩ := hT
  have hi0 : (0 : ℝ) ≤ i := Nat.cast_nonneg i
  have hen := exp_pow_enclosure aLo aHi P Q (-a * (i : ℝ)) i (by exact_mod_cast hP0) hP hQ
    (by nlinarith) (by nlinarith)
  have hloR : (k : ℝ) ≤ ((P : ℝ) ^ i - 1 / 2 ^ 24) * cLo * (1 - 1 / 2 ^ 53) ^ 2 * 1024 := by
    have h := (Rat.cast_le (K := ℝ)).mpr hlo
    push_cast at h
    exact h
  have hhiR : ((Q : ℝ) ^ i + 1 / 2 ^ 24) * cHi * (1 + 1 / 2 ^ 53) ^ 2 * 1024 < k + 1 := by
    have h := (Rat.cast_lt (K := ℝ)).mpr hhi
    push_cast at h
    exact h
  have htolR : (1 : ℝ) / 2 ^ 24 ≤ (P : ℝ) ^ i := by
    have h := (Rat.cast_le (K := ℝ)).mpr htol
    push_cast at h
    exact h
  have hcLo : (0 : ℝ) ≤ cLo := by exact_mod_cast hc0
  have hE0 : 0 ≤ Real.exp (-a * (i : ℝ)) := (Real.exp_pos _).le
  have hfloor : ⌊Real.exp (-a * (i : ℝ)) * (Real.pi / (1 + a)) * 1024⌋ = k := by
    rw [Int.floor_eq_iff]
    constructor
    · calc (k : ℝ) ≤ ((P : ℝ) ^ i - 1 / 2 ^ 24) * cLo * (1 - 1 / 2 ^ 53) ^ 2 * 1024 := hloR
        _ ≤ ((P : ℝ) ^ i - 1 / 2 ^ 24) * cLo * 1 * 1024 := by
            have h0 : 0 ≤ ((P : ℝ) ^ i - 1 / 2 ^ 24) * cLo := mul_nonneg (by linarith) hcLo
            have h1 : ((1 : ℝ) - 1 / 2 ^ 53) ^ 2 ≤ 1 := by norm_num
            gcongr
        _ ≤ Real.exp (-a * (i : ℝ)) * (Real.pi / (1 + a)) * 1 * 1024 := by
            have h2 : (P : ℝ) ^ i - 1 / 2 ^ 24 ≤ Real.exp (-a * (i : ℝ)) := by linarith [hen.1]
            have h3 : (0 : ℝ) ≤ (P : ℝ) ^ i - 1 / 2 ^ 24 := by linarith
            gcongr
        _ = Real.exp (-a * (i : ℝ)) * (Real.pi / (1 + a)) * 1024 := by ring
    · calc Real.exp (-a * (i : ℝ)) * (Real.pi / (1 + a)) * 1024
          = Real.exp (-a * (i : ℝ)) * (Real.pi / (1 + a)) * 1 * 1024 := by ring
        _ ≤ ((Q : ℝ) ^ i + 1 / 2 ^ 24) * cHi * (1 + 1 / 2 ^ 53) ^ 2 * 1024 := by
            have h2 : Real.exp (-a * (i : ℝ)) ≤ (Q : ℝ) ^ i + 1 / 2 ^ 24 := by
              linarith [hen.2]
            have h4 : (0 : ℝ) ≤ Real.pi / (1 + a) := le_trans hcLo hc1
            have h5 : (0 : ℝ) ≤ cHi := le_trans h4 hc2
            have h6 : (0 : ℝ) ≤ (Q : ℝ) ^ i + 1 / 2 ^ 24 := le_trans hE0 h2
            have h1 : (1 : ℝ) ≤ (1 + 1 / 2 ^ 53) ^ 2 := by norm_num
            gcongr
        _ < k + 1 := hhiR
  unfold IsSpecOffset
  rw [hfloor]
  exact (Int.emod_eq_of_lt hk0 hk1).symm

/-- The reference value of every layer of the program is the table's entry. -/
theorem specOffset_layer (i : ℕ) (h1 : 1 ≤ i) (h2 : i ≤ 33) :
    IsSpecOffset (302011 / 10000000) 4096 i (offsetTable.getD (i - 1) 0) :=
  specOffset_of_check (302011 / 10000000) (302010999 / 10000000000) (302011001 / 10000000000)
    (9702503964762 / 10000000000000) (9702503966706 / 10000000000000)
    (30494945633330 / 10000000000000) (30494945633333 / 10000000000000) i _
    (by norm_num) (by norm_num) (by norm_num) (by norm_num)
    exp_ALPHA_lower exp_ALPHA_upper pi_div_ALPHA_bounds.1 pi_div_ALPHA_bounds.2
    (table_check i h1 h2)

/-- The reference value of every layer for `alpha = 0.1`. -/
theorem specOffset_tenth (i : ℕ) (h1 : 1 ≤ i) (h2 : i ≤ 5) :
    IsSpecOffset (1 / 10) 4096 i (tenthTable.getD (i - 1) 0) :=
  specOffset_of_check (1 / 10) (999999999 / 10000000000) (1000000001 / 10000000000)
    (9048374179453 / 10000000000000) (9048374181266 / 10000000000000)
    (28559933214451 / 10000000000000) (28559933214454 / 10000000000000) i _
    (by norm_num) (by norm_num) (by norm_num) (by norm_num)
    exp_tenth_lower exp_tenth_upper pi_div_tenth_bounds.1 pi_div_tenth_bounds.2
    (tenth_check i h1 h2)

/-! ## Every offset is a buffer index -/

/-- The offset is defined and an index into the 4096-byte buffer for every
positive `alpha` and every layer, whatever `exp` returns within `[0, 1]`. -/
theorem offsetAt_in_buffer (expF : ℚ → ℚ) (hR : ExpUnitRange expF) (alpha : ℚ)
    (halpha : 0 < alpha) (i : ℕ) :
    ∃ k : ℤ, offsetAt expF alpha i = some k ∧ 0 ≤ k ∧ k < 4096 := by
  have hi0 : (0 : ℚ) ≤ i := Nat.cast_nonneg i
  have hq : -alpha * (i : ℚ) ≤ 0 := by nlinarith
  have hx : rnd (-alpha * (i : ℚ)) ≤ 0 := by
    have h := (rnd_nonpos_bounds _ hq).2
    have hu : (0 : ℚ) ≤ 1 - 1 / 2 ^ 53 := by norm_num
    nlinarith
  obtain ⟨he0, he1⟩ := hR _ hx
  have hD : 1 - 1 / 2 ^ 53 ≤ rnd (1 + alpha) := by
    have h := (rnd_nonneg_bounds (1 + alpha) (by linarith)).1
    have hu : (0 : ℚ) ≤ 1 - 1 / 2 ^ 53 := by norm_num
    nlinarith
  have hD0 : 0 < rnd (1 + alpha) := lt_of_lt_of_le (by norm_num) hD
  have hpi0 : (0 : ℚ) ≤ M_PI := by rw [M_PI_eq]; norm_num
  have hpi1 : M_PI ≤ 31416 / 10000 := by rw [M_PI_eq]; norm_num
  have hq0 : 0 ≤ M_PI / rnd (1 + alpha) := div_nonneg hpi0 hD0.le
  have hq1 : M_PI / rnd (1 + alpha) ≤ 31417 / 10000 := by
    rw [div_le_iff₀ hD0]
    calc M_PI ≤ 31416 / 10000 := hpi1
      _ ≤ 31417 / 10000 * (1 - 1 / 2 ^ 53) := by norm_num
      _ ≤ 31417 / 10000 * rnd (1 + alpha) := by gcongr
  have hc0 : 0 ≤ rnd (M_PI / rnd (1 + alpha)) := rnd_nonneg _ hq0
  have hc1 : rnd (M_PI / rnd (1 + alpha)) ≤ 31418 / 10000 := by
    have h := (rnd_nonneg_bounds _ hq0).2
    calc rnd (M_PI / rnd (1 + alpha)) ≤ M_PI / rnd (1 + alpha) * (1 + 1 / 2 ^ 53) := h
      _ ≤ 31417 / 10000 * (1 + 1 / 2 ^ 53) := by gcongr
      _ ≤ 31418 / 10000 := by norm_num
  have hy0 : 0 ≤ expF (rnd (-alpha * (i : ℚ))) * rnd (M_PI / rnd (1 + alpha)) :=
    mul_nonneg he0 hc0
  have hy1 : expF (rnd (-alpha * (i : ℚ))) * rnd (M_PI / rnd (1 + alpha)) ≤ 31418 / 10000 := by
    calc expF (rnd (-alpha * (i : ℚ))) * rnd (M_PI / rnd (1 + alpha))
        ≤ 1 * rnd (M_PI / rnd (1 + alpha)) := by gcongr
      _ ≤ 31418 / 10000 := by linarith
  have hb := scaled_bounds _ hy0
  have hv0 : 0 ≤ rnd (resonanceAt expF alpha i * 1024) := by
    unfold resonanceAt
    refine le_trans ?_ hb.1
    exact mul_nonneg (mul_nonneg hy0 (by norm_num)) (by norm_num)
  have hv1 : rnd (resonanceAt expF alpha i * 1024) < 3218 := by
    unfold resonanceAt
    calc _ ≤ expF (rnd (-alpha * (i : ℚ))) * rnd (M_PI / rnd (1 + alpha))
            * (1 + 1 / 2 ^ 53) ^ 2 * 1024 := hb.2
      _ ≤ 31418 / 10000 * (1 + 1 / 2 ^ 53) ^ 2 * 1024 := by gcongr
      _ < 3218 := by norm_num
  have hk0 : 0 ≤ ⌊rnd (resonanceAt expF alpha i * 1024)⌋ := Int.floor_nonneg.mpr hv0
  have hk1 : ⌊rnd (resonanceAt expF alpha i * 1024)⌋ < 4096 := by
    rw [Int.floor_lt]
    push_cast
    linarith
  refine ⟨⌊rnd (resonanceAt expF alpha i * 1024)⌋, ?_, hk0, hk1⟩
  exact (cast_mod_of_floor _ _ hk0 hk1 (Int.floor_le _) (Int.lt_floor_add_one _)).2.2

theorem ALPHA_pos : 0 < ALPHA := by rw [ALPHA_eq]; norm_num

theorem table_decreasing (i j : ℕ) (hij : i < j) (hj : j < 33) :
    offsetTable.getD j 0 < offsetTable.getD i 0 := by
  have h : ∀ a : Fin 33, ∀ b : Fin 33, a < b →
      offsetTable.getD b.val 0 < offsetTable.getD a.val 0 := by decide
  exact h ⟨i, by omega⟩ ⟨j, hj⟩ hij

/-! ## Two runs from the same queue state -/

theorem triplesOf_append_read (b : ℤ) (l : List Sqe) (off : ℤ) :
    triplesOf b (l ++ [Sqe.read 0 (b + off) 1 0]) = triplesOf b l ++ [((0 : ℤ), off, 1)] := by
  unfold triplesOf
  simp [List.filterMap_append]

/-- The loop body keeps two runs with the same `exp` in agreement. -/
theorem layerStep_same (env₁ env₂ : Env) (layers n : ℕ) (b₁ b₂ : ℤ) (s₁ s₂ : State) (i : ℕ)
    (hexp : env₁.expF = env₂.expF) (hs : SameQueue n b₁ b₂ s₁ s₂) :
    SameResult n b₁ b₂ (layerStep env₁ layers b₁ s₁ i) (layerStep env₂ layers b₂ s₂ i) := by
  obtain ⟨hent, hfl, hlen, hn, htr⟩ := hs
  cases hoff : offset env₁.expF i with
  | none =>
    have hoff₂ : offset env₂.expF i = none := by rw [← hexp]; exact hoff
    unfold layerStep
    rw [hoff, hoff₂]
    exact ⟨rfl, hent, hfl, hlen, hn, htr⟩
  | some off =>
    have hoff₂ : offset env₂.expF i = some off := by rw [← hexp]; exact hoff
    by_cases hfree : s₁.ring.pending.length < s₁.ring.entries
    · have hfree₂ : s₂.ring.pending.length < s₂.ring.entries := by omega
      rw [layerStep_ok env₁ layers b₁ s₁ i off hoff hfree,
        layerStep_ok env₂ layers b₂ s₂ i off hoff₂ hfree₂]
      refine ⟨hent, hfl, ?_, ?_, ?_⟩
      · simp [hlen]
      · simp
        omega
      · show triplesOf b₁ ((s₁.ring.pending ++ [Sqe.read 0 (b₁ + off) 1 0]).drop n)
          = triplesOf b₂ ((s₂.ring.pending ++ [Sqe.read 0 (b₂ + off) 1 0]).drop n)
        rw [List.drop_append_of_le_length hn, List.drop_append_of_le_length (by omega),
          triplesOf_append_read, triplesOf_append_read, htr]
    · have hfull₂ : ¬ s₂.ring.pending.length < s₂.ring.entries := by omega
      rw [layerStep_full env₁ layers b₁ s₁ i off hoff hfree,
        layerStep_full env₂ layers b₂ s₂ i off hoff₂ hfull₂]
      exact ⟨rfl, hent, hfl, hlen, hn, htr⟩

/-- The loop keeps two runs with the same `exp` in agreement. -/
theorem loop_same (env₁ env₂ : Env) (layers n : ℕ) (b₁ b₂ : ℤ)
    (hexp : env₁.expF = env₂.expF) :
    ∀ (l : List ℕ) (s₁ s₂ : State), SameQueue n b₁ b₂ s₁ s₂ →
      SameResult n b₁ b₂ (l.foldlM (layerStep env₁ layers b₁) s₁)
        (l.foldlM (layerStep env₂ layers b₂) s₂) := by
  intro l
  induction l with
  | nil =>
    intro s₁ s₂ hs
    exact hs
  | cons i l ih =>
    intro s₁ s₂ hs
    have hstep := layerStep_same env₁ env₂ layers n b₁ b₂ s₁ s₂ i hexp hs
    rw [List.foldlM_cons, List.foldlM_cons]
    cases h₁ : layerStep env₁ layers b₁ s₁ i with
    | error e₁ =>
      cases h₂ : layerStep env₂ layers b₂ s₂ i with
      | error e₂ =>
        rw [h₁, h₂] at hstep
        exact hstep
      | ok t₂ =>
        rw [h₁, h₂] at hstep
        cases e₁ <;> exact hstep.elim
    | ok t₁ =>
      cases h₂ : layerStep env₂ layers b₂ s₂ i with
      | error e₂ =>
        rw [h₁, h₂] at hstep
        exact hstep.elim
      | ok t₂ =>
        rw [h₁, h₂] at hstep
        exact ih t₁ t₂ hstep

/-- Two runs of the function with the same `exp` from the same ring show the same. -/
theorem trigger_same (env₁ env₂ : Env) (st₁ st₂ : State)
    (hexp : env₁.expF = env₂.expF) (hring : st₁.ring = st₂.ring) :
    observed env₁.mallocRet st₁ (trigger_ctt_resonance env₁ st₁)
      = observed env₂.mallocRet st₂ (trigger_ctt_resonance env₂ st₂) := by
  have hinit : SameQueue st₁.ring.pending.length env₁.mallocRet env₂.mallocRet
      { st₁ with stdout := st₁.stdout ++
          ["[!] SimoesCTT: Initializing Bernoulli Vortex Resonance...\n"] }
      { st₂ with stdout := st₂.stdout ++
          ["[!] SimoesCTT: Initializing Bernoulli Vortex Resonance...\n"] } := by
    refine ⟨by rw [hring], by rw [hring], by rw [hring], le_refl _, ?_⟩
    show triplesOf _ (st₁.ring.pending.drop _) = triplesOf _ (st₂.ring.pending.drop _)
    rw [← hring, List.drop_length]
    rfl
  have hloop := loop_same env₁ env₂ 33 st₁.ring.pending.length env₁.mallocRet env₂.mallocRet
    hexp (List.range' 1 33) _ _ hinit
  have hlen : st₂.ring.pending.length = st₁.ring.pending.length := by rw [hring]
  unfold trigger_ctt_resonance triggerWith
  simp only [L_LAYERS]
  cases h₁ : (List.range' 1 33).foldlM (layerStep env₁ 33 env₁.mallocRet)
      { st₁ with stdout := st₁.stdout ++
          ["[!] SimoesCTT: Initializing Bernoulli Vortex Resonance...\n"] } with
  | error e₁ =>
    cases h₂ : (List.range' 1 33).foldlM (layerStep env₂ 33 env₂.mallocRet)
        { st₂ with stdout := st₂.stdout ++
            ["[!] SimoesCTT: Initializing Bernoulli Vortex Resonance...\n"] } with
    | error e₂ =>
      rw [h₁, h₂] at hloop
      cases e₁ with
      | nullSqe i a =>
        cases e₂ with
        | nullSqe j b =>
          obtain ⟨hij, -, -, -, -, htr⟩ := hloop
          simp only [bind, Except.bind, observed, hlen, hij, htr]
        | intCast j b => exact hloop.elim
      | intCast i a =>
        cases e₂ with
        | nullSqe j b => exact hloop.elim
        | intCast j b =>
          obtain ⟨hij, -, -, -, -, htr⟩ := hloop
          simp only [bind, Except.bind, observed, hlen, hij, htr]
    | ok t₂ =>
      rw [h₁, h₂] at hloop
      cases e₁ <;> exact hloop.elim
  | ok t₁ =>
    cases h₂ : (List.range' 1 33).foldlM (layerStep env₂ 33 env₂.mallocRet)
        { st₂ with stdout := st₂.stdout ++
            ["[!] SimoesCTT: Initializing Bernoulli Vortex Resonance...\n"] } with
    | error e₂ =>
      rw [h₁, h₂] at hloop
      exact hloop.elim
    | ok t₂ =>
      rw [h₁, h₂] at hloop
      obtain ⟨-, -, -, -, htr⟩ := hloop
      simp only [bind, Except.bind, pure, Except.pure, observed, requestsOf, io_uring_submit,
        List.getLast?_append, List.getLast?_singleton, hlen]
      simp [htr]

theorem triplesOf_reads (b : ℤ) (l : List ℤ) :
    triplesOf b (l.map (fun o => Sqe.read 0 (b + o) 1 0)) = l.map (fun o => ((0 : ℤ), o, 1)) := by
  induction l with
  | nil => rfl
  | cons o l ih =>
    unfold triplesOf at ih ⊢
    simp only [List.map_cons, List.filterMap_cons, add_sub_cancel_left]
    rw [ih]

/-- On the ring `main` passes on after a successful `io_uring_queue_init(32, ...)`
the function prepares the reads of layers 1 to 32 and faults at layer 33. -/
theorem trigger_on_fresh (env : Env) (st : State) (hF : ExpAccurate env.expF)
    (hring : st.ring = freshState.ring) :
    trigger_ctt_resonance env st =
      .error (Fault.nullSqe 33
        { ring := { entries := 32,
                    pending := (offsetTable.take 32).map
                      (fun o => Sqe.read 0 (env.mallocRet + o) 1 0),
                    flushed := [] },
          stdout := st.stdout ++
            ["[!] SimoesCTT: Initializing Bernoulli Vortex Resonance...\n"] }) := by
  obtain ⟨ring, out⟩ := st
  simp only at hring
  subst hring
  rw [trigger_exhausted env _ hF rfl]
  rfl

/-! ## The claims -/

/-- C1: for every layer `i` of the program (`ALPHA`, `i = 1 .. 33`), and more
generally for every positive `alpha` and every layer index, the offset of lines
23-24 is defined and lies in `[0, 4096)`, so the one-byte read at
`buffer + offset` stays inside the 4096-byte buffer. -/
theorem offset_stays_in_buffer (expF : ℚ → ℚ) (hR : ExpUnitRange expF) :
    (∀ i : ℕ, 1 ≤ i → i ≤ L_LAYERS →
      ∃ k : ℤ, offset expF i = some k ∧ 0 ≤ k ∧ k < 4096 ∧ k + 1 ≤ 4096 ∧
        ∀ buffer : ℤ, buffer ≤ buffer + k ∧ buffer + k + 1 ≤ buffer + 4096) ∧
    (∀ (alpha : ℚ) (i : ℕ), 0 < alpha → 1 ≤ i →
      ∃ k : ℤ, offsetAt expF alpha i = some k ∧ 0 ≤ k ∧ k < 4096 ∧ k + 1 ≤ 4096) := by
  constructor
  · intro i _ _
    obtain ⟨k, hk, hk0, hk1⟩ := offsetAt_in_buffer expF hR ALPHA ALPHA_pos i
    exact ⟨k, hk, hk0, hk1, by omega, fun buffer => ⟨by omega, by omega⟩⟩
  · intro alpha i halpha _
    obtain ⟨k, hk, hk0, hk1⟩ := offsetAt_in_buffer expF hR alpha halpha i
    exact ⟨k, hk, hk0, hk1, by omega⟩

/-- C1 at `expRef`, `alpha = 0.1`, layer 5. -/
theorem offset_stays_in_buffer_witness :
    ExpUnitRange expRef ∧
      ∃ k : ℤ, offsetAt expRef (rnd (1 / 10)) 5 = some k ∧ 0 ≤ k ∧ k < 4096 ∧ k + 1 ≤ 4096 :=
  ⟨expRef_unitRange,
    (offset_stays_in_buffer expRef expRef_unitRange).2 (rnd (1 / 10)) 5
      (by rw [tenth_eq]; norm_num) (by norm_num)⟩

/-- C2: what the program does with 33 layers against the queue of capacity 32
that `main` sets up. The 33rd `io_uring_get_sqe` returns NULL, the result is
not looked at, and `io_uring_prep_read` writes through it: the run ends in that
fault with 32 reads pending and nothing flushed. No `QueueExhausted` is
returned. -/
theorem main_faults_at_layer_33 (env : Env) (hF : ExpAccurate env.expF)
    (hinit : ¬ env.setup 32 < 0) :
    ∃ st : State, main env = .error (Fault.nullSqe 33 st) ∧
      st.ring.entries = 32 ∧ st.ring.pending.length = 32 ∧ st.ring.flushed = [] := by
  refine ⟨_, main_exhausted env hF hinit, rfl, ?_, rfl⟩
  simp [offsetTable]

/-- C2 at `refEnv`, where queue creation succeeds. -/
theorem main_faults_at_layer_33_witness :
    ∃ st : State, main refEnv = .error (Fault.nullSqe 33 st) ∧
      st.ring.entries = 32 ∧ st.ring.pending.length = 32 ∧ st.ring.flushed = [] :=
  main_faults_at_layer_33 refEnv expRef_accurate (by decide)

/-- C3 as stated fails: neither the reference formula nor the program gives
1001 for layer 1. -/
theorem first_offset_not_1001 :
    ¬ IsSpecOffset (302011 / 10000000) 4096 1 1001 ∧
      ¬ (∀ expF : ℚ → ℚ, ExpAccurate expF → offset expF 1 = some 1001) := by
  constructor
  · intro h
    have h2 := specOffset_layer 1 (by norm_num) (by norm_num)
    unfold IsSpecOffset at h h2
    rw [← h] at h2
    revert h2
    decide
  · intro h
    have h1 := h expRef expRef_accurate
    rw [(offset_layer expRef expRef_accurate 1 (by norm_num) (by norm_num)).2.2] at h1
    revert h1
    decide

/-- C3, amended: for `ALPHA = 0.0302011` and `i = 1` the offset is 3029, both
by the reference formula `floor(exp(-alpha) * (pi/(1+alpha)) * 1024) mod 4096`
and as the program computes it in doubles. -/
theorem first_offset_eq_3029 (expF : ℚ → ℚ) (hF : ExpAccurate expF) :
    offset expF 1 = some 3029 ∧ IsSpecOffset (302011 / 10000000) 4096 1 3029 :=
  ⟨(offset_layer expF hF 1 (by norm_num) (by norm_num)).2.2,
    specOffset_layer 1 (by norm_num) (by norm_num)⟩

/-- C3, amended, at `expRef`. -/
theorem first_offset_eq_3029_witness :
    ExpAccurate expRef ∧ offset expRef 1 = some 3029 ∧
      IsSpecOffset (302011 / 10000000) 4096 1 3029 :=
  ⟨expRef_accurate, first_offset_eq_3029 expRef expRef_accurate⟩

/-- C4: for every layer `i = 1 .. L_LAYERS` the offset the program computes in
doubles is the reference `floor(exp(-alpha*i) * (pi/(1+alpha)) * 1024) mod 4096`
over the reals; the scaled value is non-negative and fits an `int`, so the
truncating cast is the floor and C's remainder is the mathematical one. -/
theorem offset_refines_reference (expF : ℚ → ℚ) (hF : ExpAccurate expF) (i : ℕ)
    (h1 : 1 ≤ i) (h2 : i ≤ L_LAYERS) :
    ∃ k : ℤ, offset expF i = some k ∧ IsSpecOffset (302011 / 10000000) 4096 i k ∧
      0 ≤ rnd (resonance expF i * 1024) ∧
      castInt (rnd (resonance expF i * 1024)) = some ⌊rnd (resonance expF i * 1024)⌋ ∧
      Int.tmod ⌊rnd (resonance expF i * 1024)⌋ 4096
        = ⌊rnd (resonance expF i * 1024)⌋ % 4096 := by
  obtain ⟨hfl, hcast, hoff⟩ := offset_layer expF hF i h1 h2
  have hT := table_check i h1 h2
  have hk0 : 0 ≤ offsetTable.getD (i - 1) 0 := hT.1
  refine ⟨offsetTable.getD (i - 1) 0, hoff, specOffset_layer i h1 h2, ?_, ?_, ?_⟩
  · have h := Int.floor_le (rnd (resonance expF i * 1024))
    rw [hfl] at h
    have h0 : (0 : ℚ) ≤ ((offsetTable.getD (i - 1) 0 : ℤ) : ℚ) := by exact_mod_cast hk0
    linarith
  · rw [hfl]
    exact hcast
  · rw [hfl]
    exact Int.tmod_eq_emod hk0 (by norm_num)

/-- C4 at `expRef`, layer 33. -/
theorem offset_refines_reference_witness :
    ∃ k : ℤ, offset expRef 33 = some k ∧ IsSpecOffset (302011 / 10000000) 4096 33 k ∧
      0 ≤ rnd (resonance expRef 33 * 1024) ∧
      castInt (rnd (resonance expRef 33 * 1024)) = some ⌊rnd (resonance expRef 33 * 1024)⌋ ∧
      Int.tmod ⌊rnd (resonance expRef 33 * 1024)⌋ 4096
        = ⌊rnd (resonance expRef 33 * 1024)⌋ % 4096 :=
  offset_refines_reference expRef expRef_accurate 33 (by decide) (by decide)

/-- C5: what the function does on the ring `main` passes on. It prepares the
read requests of layers 1 to 32 only, in increasing order, each reading 1 byte
from descriptor 0 into `buffer + offset(i)`; the 33rd `io_uring_get_sqe`
returns NULL, `io_uring_prep_read` writes through it, and `io_uring_submit` is
not reached: 32 requests, not 33, and no flush. -/
theorem trigger_stops_before_flush (env : Env) (st : State) (hF : ExpAccurate env.expF)
    (hring : st.ring = freshState.ring) :
    (List.range' 1 32).map (offset env.expF) = (offsetTable.take 32).map some ∧
    (offsetTable.take 32).length = 32 ∧
    trigger_ctt_resonance env st =
      .error (Fault.nullSqe 33
        { ring := { entries := 32,
                    pending := (offsetTable.take 32).map
                      (fun o => Sqe.read 0 (env.mallocRet + o) 1 0),
                    flushed := [] },
          stdout := st.stdout ++
            ["[!] SimoesCTT: Initializing Bernoulli Vortex Resonance...\n"] }) := by
  refine ⟨?_, rfl, trigger_on_fresh env st hF hring⟩
  rw [List.map_congr_left (offsets_of_range env.expF hF 32 (by norm_num))]
  rfl

/-- C5 at `refEnv`, from the ring of a successful `io_uring_queue_init(32, ...)`. -/
theorem trigger_stops_before_flush_witness :
    ∃ st : State, trigger_ctt_resonance refEnv freshState = .error (Fault.nullSqe 33 st) ∧
      st.ring.pending.length = 32 ∧ st.ring.flushed = [] :=
  ⟨_, (trigger_stops_before_flush refEnv freshState expRef_accurate rfl).2.2, by decide, rfl⟩

/-- C6: `main` never delivers an exit code. It cannot reach its `return 0`:
after a successful `io_uring_queue_init(32, ...)` the run faults at layer 33,
and after a failed one, whose result is not looked at, it faults at layer 1
instead of ending with a nonzero exit code; nothing is ever flushed. -/
theorem main_never_returns (env : Env) (hF : ExpAccurate env.expF) :
    (∀ out : ℤ × State, main env ≠ .ok out) ∧
    (¬ env.setup 32 < 0 →
      ∃ st : State, main env = .error (Fault.nullSqe 33 st) ∧ st.ring.flushed = []) ∧
    (env.setup 32 < 0 →
      (io_uring_queue_init env.setup 32).1 < 0 ∧
      ∃ st : State, main env = .error (Fault.nullSqe 1 st) ∧
        st.ring.pending = [] ∧ st.ring.flushed = []) := by
  refine ⟨fun out => main_not_ok env out, ?_, ?_⟩
  · intro hinit
    exact ⟨_, main_exhausted env hF hinit, rfl⟩
  · intro hinit
    refine ⟨?_, _, main_no_queue env hF hinit, rfl, rfl⟩
    unfold io_uring_queue_init
    rw [if_pos hinit]
    exact hinit

/-- C6 at `failEnv`, where queue creation returns `-38`. -/
theorem main_never_returns_witness :
    (io_uring_queue_init failEnv.setup 32).1 < 0 ∧
      ∃ st : State, main failEnv = .error (Fault.nullSqe 1 st) ∧
        st.ring.pending = [] ∧ st.ring.flushed = [] :=
  (main_never_returns failEnv expRef_accurate).2.2 (by decide)

/-- C7: for `alpha = 0.1` the offsets of layers 1 to 5, in that order, are
2646, 2394, 2166, 1960, 1773: pairwise distinct, and the values the reference
formula gives. -/
theorem tenth_offsets_table (expF : ℚ → ℚ) (hF : ExpAccurate expF) :
    (List.range' 1 5).map (offsetAt expF (rnd (1 / 10)))
        = [some 2646, some 2394, some 2166, some 1960, some 1773] ∧
      ([2646, 2394, 2166, 1960, 1773] : List ℤ).Nodup ∧
      IsSpecOffset (1 / 10) 4096 1 2646 ∧ IsSpecOffset (1 / 10) 4096 2 2394 ∧
      IsSpecOffset (1 / 10) 4096 3 2166 ∧ IsSpecOffset (1 / 10) 4096 4 1960 ∧
      IsSpecOffset (1 / 10) 4096 5 1773 := by
  refine ⟨?_, by decide, specOffset_tenth 1 (by norm_num) (by norm_num),
    specOffset_tenth 2 (by norm_num) (by norm_num), specOffset_tenth 3 (by norm_num) (by norm_num),
    specOffset_tenth 4 (by norm_num) (by norm_num), specOffset_tenth 5 (by norm_num) (by norm_num)⟩
  have e1 := tenth_layer expF hF 1 (by norm_num) (by norm_num)
  have e2 := tenth_layer expF hF 2 (by norm_num) (by norm_num)
  have e3 := tenth_layer expF hF 3 (by norm_num) (by norm_num)
  have e4 := tenth_layer expF hF 4 (by norm_num) (by norm_num)
  have e5 := tenth_layer expF hF 5 (by norm_num) (by norm_num)
  show [offsetAt expF (rnd (1 / 10)) 1, offsetAt expF (rnd (1 / 10)) 2,
    offsetAt expF (rnd (1 / 10)) 3, offsetAt expF (rnd (1 / 10)) 4,
    offsetAt expF (rnd (1 / 10)) 5] = _
  rw [e1, e2, e3, e4, e5]
  rfl

/-- C7 at `expRef`. -/
theorem tenth_offsets_table_witness :
    ExpAccurate expRef ∧
      (List.range' 1 5).map (offsetAt expRef (rnd (1 / 10)))
        = [some 2646, some 2394, some 2166, some 1960, some 1773] :=
  ⟨expRef_accurate, (tenth_offsets_table expRef expRef_accurate).1⟩

/-- C8 as stated fails: with zero layers the routine returns normally, having
prepared nothing and flushed an empty batch. -/
theorem zero_layers_returns_ok :
    triggerWith 0 refEnv freshState =
      .ok { ring := { entries := 32, pending := [], flushed := [[]] },
            stdout := ["[!] SimoesCTT: Initializing Bernoulli Vortex Resonance...\n",
              "[SUCCESS] Vortex Pulse Dispatched. Monitor Kernel Log for Panic.\n"] } := by
  rfl

/-- C8, amended: run with a layer count of 0 the submission routine does not
fail: the loop body never runs, no request is prepared, what was pending is
flushed as one batch, and the routine returns normally. The code has no
`InvalidParameter` result. -/
theorem zero_layers_flushes_without_error (env : Env) (st : State) :
    triggerWith 0 env st =
      .ok { ring := { entries := st.ring.entries, pending := [],
                      flushed := st.ring.flushed ++ [st.ring.pending] },
            stdout := st.stdout ++
              ["[!] SimoesCTT: Initializing Bernoulli Vortex Resonance...\n",
               "[SUCCESS] Vortex Pulse Dispatched. Monitor Kernel Log for Panic.\n"] } := by
  unfold triggerWith
  simp [List.range', bind, Except.bind, pure, Except.pure, io_uring_submit]

/-- C9: two runs of the submission loop with the same `exp` from the same
queue state show the same, whatever `malloc`, the kernel and the output so far
were: they end the same way with the same sequence of `(descriptor, offset,
length)` requests. From the queue state `main` sets up that sequence has the 32
requests of layers 1 to 32, not 33, and both runs end in the fault at layer 33. -/
theorem runs_agree_on_32_requests (env₁ env₂ : Env) (hexp : env₁.expF = env₂.expF)
    (hF : ExpAccurate env₁.expF) :
    (∀ st₁ st₂ : State, st₁.ring = st₂.ring →
      observed env₁.mallocRet st₁ (trigger_ctt_resonance env₁ st₁)
        = observed env₂.mallocRet st₂ (trigger_ctt_resonance env₂ st₂)) ∧
    (∀ st : State, st.ring = freshState.ring →
      observed env₁.mallocRet st (trigger_ctt_resonance env₁ st)
        = (Ending.nullWrite 33, (offsetTable.take 32).map (fun o => ((0 : ℤ), o, 1)))) ∧
    ((offsetTable.take 32).map (fun o => ((0 : ℤ), o, 1))).length = 32 := by
  refine ⟨fun st₁ st₂ hring => trigger_same env₁ env₂ st₁ st₂ hexp hring, ?_, rfl⟩
  intro st hring
  rw [trigger_on_fresh env₁ st hF hring]
  simp only [observed]
  rw [hring]
  show (Ending.nullWrite 33, triplesOf env₁.mallocRet
    ((offsetTable.take 32).map (fun o => Sqe.read 0 (env₁.mallocRet + o) 1 0))) = _
  rw [triplesOf_reads]

/-- C9 at `refEnv` and `failEnv`, which differ in the buffer address and in the
kernel's answers, from two states that differ in what was printed before. -/
theorem runs_agree_on_32_requests_witness :
    observed refEnv.mallocRet freshState (trigger_ctt_resonance refEnv freshState)
      = observed failEnv.mallocRet { freshState with stdout := ["earlier output"] }
          (trigger_ctt_resonance failEnv { freshState with stdout := ["earlier output"] }) ∧
    observed refEnv.mallocRet freshState (trigger_ctt_resonance refEnv freshState)
      = (Ending.nullWrite 33, (offsetTable.take 32).map (fun o => ((0 : ℤ), o, 1))) :=
  ⟨(runs_agree_on_32_requests refEnv failEnv rfl expRef_accurate).1 freshState
      { freshState with stdout := ["earlier output"] } rfl,
    (runs_agree_on_32_requests refEnv failEnv rfl expRef_accurate).2.1 freshState rfl⟩

/-- C10: for `ALPHA = 0.0302011` and `L_LAYERS = 33` the offsets are strictly
decreasing in the layer index over `1 .. 33`, hence pairwise distinct: no two
of the queued one-byte reads target the same byte of the buffer. -/
theorem offsets_strictly_decreasing (expF : ℚ → ℚ) (hF : ExpAccurate expF) (i j : ℕ)
    (h1 : 1 ≤ i) (hij : i < j) (h2 : j ≤ L_LAYERS) :
    ∃ a b : ℤ, offset expF i = some a ∧ offset expF j = some b ∧ b < a ∧
      ∀ buffer : ℤ, buffer + a ≠ buffer + b := by
  have hj : j ≤ 33 := h2
  have hd := table_decreasing (i - 1) (j - 1) (by omega) (by omega)
  refine ⟨_, _, (offset_layer expF hF i h1 (by omega)).2.2,
    (offset_layer expF hF j (by omega) hj).2.2, hd, ?_⟩
  intro buffer h
  omega

/-- C10 at `expRef`, layers 1 and 33. -/
theorem offsets_strictly_decreasing_witness :
    ∃ a b : ℤ, offset expRef 1 = some a ∧ offset expRef 33 = some b ∧ b < a ∧
      ∀ buffer : ℤ, buffer + a ≠ buffer + b :=
  offsets_strictly_decreasing expRef expRef_accurate 1 33 (by decide) (by decide) (by decide)

end BernoulliVortex
